import Mathlib

/-!
Verification of the `aiharajudge` Gemini API-key proxy backend (`src/main.py`).

The file shallowly embeds the pure logic of the service:

* `extract_json` — the heuristic that recovers a JSON object from model
  output (a fenced ```json block via a greedy regex, else the span from the
  first `\x7b` to the last `\x7d`), together with a model of Python's strict
  `json.loads` over a `Json` value type;
* `rate_limit` — the per-IP sliding-window limiter (dictionary of timestamp
  lists; timestamps are integers counting microseconds, mirroring
  `datetime`/`timedelta` arithmetic, in particular the `.seconds` field of a
  `timedelta`, which is the seconds component modulo one day);
* `get_api_key` and `check_referer` — the access-control gate;
* the image-processing loop of the `check_harassment` handler (the first
  three uploads with an `image/` content type are decoded; a decode failure
  aborts with status 400), with the outbound Gemini call abstracted by the
  list of contents handed to it.
-/

namespace AiharaJudge

/-! ## Character-list helpers -/

/-- Does the needle `n` occur at the very start of `h`?  (List-level model of
`str.startswith`.) -/
def leadsWith : List Char → List Char → Bool
  | [], _ => true
  | _ :: _, [] => false
  | a :: n, b :: h => a == b && leadsWith n h

/-- Does the needle `n` occur anywhere inside `h`?  (List-level model of
Python's substring test `n in h`.) -/
def containsSub : List Char → List Char → Bool
  | [], n => leadsWith n []
  | c :: h, n => leadsWith n (c :: h) || containsSub h n

/-- Index of the first occurrence of `c` in `l`, as `str.find` (with `none`
for Python's `-1`). -/
def strFind (c : Char) : List Char → Option Nat
  | [] => none
  | b :: l => if b == c then some 0 else (strFind c l).map (· + 1)

/-- Index of the last occurrence of `c` in `l`, as `str.rfind` (with `none`
for Python's `-1`). -/
def strRfind (c : Char) : List Char → Option Nat
  | [] => none
  | b :: l =>
    match strRfind c l with
    | some i => some (i + 1)
    | none => if b == c then some 0 else none

theorem leadsWith_iff (n h : List Char) :
    leadsWith n h = true ↔ ∃ t, h = n ++ t := by
  induction n generalizing h with
  | nil => simp [leadsWith]
  | cons a n ih =>
    cases h with
    | nil => simp [leadsWith]
    | cons b h =>
      simp only [leadsWith, Bool.and_eq_true, beq_iff_eq, ih, List.cons_append,
        List.cons.injEq]
      constructor
      · rintro ⟨rfl, t, rfl⟩; exact ⟨t, rfl, rfl⟩
      · rintro ⟨t, rfl, rfl⟩; exact ⟨rfl, t, rfl⟩

theorem containsSub_iff (h n : List Char) :
    containsSub h n = true ↔ ∃ pre post, h = pre ++ n ++ post := by
  induction h with
  | nil =>
    simp only [containsSub, leadsWith_iff]
    constructor
    · rintro ⟨t, ht⟩
      exact ⟨[], t, by simpa using ht⟩
    · rintro ⟨pre, post, hp⟩
      refine ⟨post, ?_⟩
      rcases List.append_eq_nil.mp (List.append_eq_nil.mp hp.symm).1 with ⟨h1, h2⟩
      simp [List.append_eq_nil.mp hp.symm, h2]
  | cons c h ih =>
    simp only [containsSub, Bool.or_eq_true, leadsWith_iff, ih]
    constructor
    · rintro (⟨t, ht⟩ | ⟨pre, post, hp⟩)
      · exact ⟨[], t, by simp [ht]⟩
      · exact ⟨c :: pre, post, by simp [hp]⟩
    · rintro ⟨pre, post, hp⟩
      cases pre with
      | nil => exact Or.inl ⟨post, by simpa using hp⟩
      | cons p pre =>
        right
        refine ⟨pre, post, ?_⟩
        simpa using congrArg List.tail hp

theorem strFind_mem (c : Char) (l : List Char) (i : Nat)
    (h : strFind c l = some i) : l.get? i = some c := by
  induction l generalizing i with
  | nil => simp [strFind] at h
  | cons b l ih =>
    by_cases hb : (b == c) = true
    · simp [strFind, hb] at h
      subst h
      simpa using beq_iff_eq.mp hb
    · rw [strFind, if_neg hb] at h
      cases hfind : strFind c l with
      | none => rw [hfind] at h; simp at h
      | some j =>
        rw [hfind] at h
        simp only [Option.map_some'] at h
        obtain rfl : j + 1 = i := by simpa using h
        simpa using ih j hfind

/-! ## JSON values and a model of Python's strict `json.loads`

Numbers are kept as their source lexemes (Python converts them to
`int`/`float`; no claim compares numeric values across different lexemes, so
the lexeme is an adequate exact representation).  Objects are association
lists in parse order; Python folds duplicate keys (last value wins), but no
claim involves duplicate keys. -/

inductive Json where
  | jnull
  | jbool (b : Bool)
  | jnum (lit : String)
  | jstr (s : String)
  | jarr (elems : List Json)
  | jobj (members : List (String × Json))

/-- First key of a JSON object, if any (used to discriminate concrete
values, since `DecidableEq` cannot be derived for the nested inductive). -/
def Json.firstKey : Json → Option String
  | .jobj ((k, _) :: _) => some k
  | _ => none

/-- JSON insignificant whitespace, as accepted by Python's `json` module
(space, tab, newline, carriage return). -/
def isJsonWs : Char → Bool
  | ' ' | '\t' | '\n' | '\r' => true
  | _ => false

/-- Drop leading JSON whitespace. -/
def skipJsonWs (l : List Char) : List Char := l.dropWhile isJsonWs

/-- Value of one hex digit (code points 0-9, a-f, A-F). -/
def hexVal (c : Char) : Option Nat :=
  let n := c.toNat
  if 48 ≤ n && n ≤ 57 then some (n - 48)
  else if 97 ≤ n && n ≤ 102 then some (n - 87)
  else if 65 ≤ n && n ≤ 70 then some (n - 55)
  else none

/-- Value of a four-hex-digit escape. -/
def hex4 (a b c d : Char) : Option Nat :=
  match hexVal a, hexVal b, hexVal c, hexVal d with
  | some va, some vb, some vc, some vd =>
    some (((va * 16 + vb) * 16 + vc) * 16 + vd)
  | _, _, _, _ => none

/-- Single-character string escapes of JSON. -/
def jsonUnescape : Char → Option Char
  | '"' => some '"'
  | '\\' => some '\\'
  | '/' => some '/'
  | 'b' => some (Char.ofNat 8)
  | 'f' => some (Char.ofNat 12)
  | 'n' => some '\n'
  | 'r' => some '\r'
  | 't' => some '\t'
  | _ => none

/-- Strict JSON string scanning after the opening quote, as Python's
`scanstring` with `strict=True`: raw control characters are rejected,
`\uXXXX` escapes are decoded (surrogate pairs combined; a lone surrogate,
which Python would keep as a lone surrogate code unit, is mapped to the
default character since Lean characters are scalar values — no claim input
contains one). -/
def scanString (acc : List Char) : List Char → Except String (String × List Char)
  | '"' :: rest => .ok (String.mk acc.reverse, rest)
  | '\\' :: 'u' :: a :: b :: c :: d :: rest =>
    (match hex4 a b c d with
     | none => .error "Invalid hex escape"
     | some n =>
       if 0xD800 ≤ n && n < 0xDC00 then
         match rest with
         | '\\' :: 'u' :: a2 :: b2 :: c2 :: d2 :: rest2 =>
           (match hex4 a2 b2 c2 d2 with
            | some m =>
              if 0xDC00 ≤ m && m < 0xE000 then
                scanString (Char.ofNat (0x10000 + (n - 0xD800) * 0x400 + (m - 0xDC00)) :: acc) rest2
              else scanString (Char.ofNat m :: Char.ofNat n :: acc) rest2
            | none => .error "Invalid hex escape")
         | '\\' :: 'u' :: _ => .error "Invalid hex escape"
         | other => scanString (Char.ofNat n :: acc) other
       else scanString (Char.ofNat n :: acc) rest)
  | '\\' :: e :: rest =>
    (match jsonUnescape e with
     | some ch => scanString (ch :: acc) rest
     | none => .error "Invalid escape")
  | '\\' :: [] => .error "Unterminated string starting at"
  | c :: rest =>
    if c.toNat < 0x20 then .error "Invalid control character"
    else scanString (c :: acc) rest
  | [] => .error "Unterminated string starting at"
termination_by structural l => l

/-- Longest run of decimal digits at the front, and the remainder. -/
def takeDigits (l : List Char) : List Char × List Char :=
  (l.takeWhile Char.isDigit, l.dropWhile Char.isDigit)

/-- Scan a JSON number lexeme, mirroring Python's number regular expression
`(-?(?:0|[1-9]\d*))(\.\d+)?([eE][-+]?\d+)?`: the integer part is `0` alone
or a nonzero-leading digit run; the fraction and exponent are consumed only
when complete, otherwise they are left for the caller (where strict
top-level parsing reports them as extra data). -/
def scanNumber (l : List Char) : Except String (String × List Char) :=
  let (sign, l1) : List Char × List Char :=
    match l with
    | '-' :: r => (['-'], r)
    | _ => ([], l)
  match l1 with
  | '0' :: r =>
    let (frac, r2) := scanFrac r
    let (ex, r3) := scanExp r2
    .ok (String.mk (sign ++ ['0'] ++ frac ++ ex), r3)
  | c :: r =>
    if c.isDigit then
      let (ds, r1) := takeDigits r
      let (frac, r2) := scanFrac r1
      let (ex, r3) := scanExp r2
      .ok (String.mk (sign ++ (c :: ds) ++ frac ++ ex), r3)
    else .error "Expecting value"
  | [] => .error "Expecting value"
where
  /-- Fraction part: a dot followed by at least one digit, else nothing. -/
  scanFrac (l : List Char) : List Char × List Char :=
    match l with
    | '.' :: d :: r =>
      if d.isDigit then
        let (ds, r1) := takeDigits r
        ('.' :: d :: ds, r1)
      else ([], '.' :: d :: r)
    | _ => ([], l)
  /-- Exponent part: `e`/`E`, optional sign, at least one digit, else nothing. -/
  scanExp (l : List Char) : List Char × List Char :=
    match l with
    | e :: rest =>
      if e == 'e' || e == 'E' then
        match rest with
        | s :: d :: r =>
          if (s == '+' || s == '-') && d.isDigit then
            let (ds, r1) := takeDigits r
            (e :: s :: d :: ds, r1)
          else if s.isDigit then
            let (ds, r1) := takeDigits (d :: r)
            (e :: s :: ds, r1)
          else ([], l)
        | [d] =>
          if d.isDigit then ([e, d], []) else ([], l)
        | [] => ([], l)
      else ([], l)
    | [] => ([], l)

mutual

/-- Parse one JSON value at the head of the input (no leading whitespace
expected), following the dispatch of Python's scanner: string, object,
array, `null`/`true`/`false`, the non-standard constants `NaN`,
`Infinity`, `-Infinity` that Python accepts by default, and numbers.
`fuel` only bounds nesting and is never exhausted when it starts above the
input length. -/
def parseValue : Nat → List Char → Except String (Json × List Char)
  | 0, _ => .error "Expecting value"
  | fuel + 1, l =>
    match l with
    | '"' :: r =>
      (match scanString [] r with
       | .ok (s, r1) => .ok (.jstr s, r1)
       | .error e => .error e)
    | '{' :: r =>
      (match parseMembers fuel (skipJsonWs r) with
       | .ok (ms, r1) => .ok (.jobj ms, r1)
       | .error e => .error e)
    | '[' :: r =>
      (match parseElems fuel (skipJsonWs r) with
       | .ok (es, r1) => .ok (.jarr es, r1)
       | .error e => .error e)
    | 'n' :: 'u' :: 'l' :: 'l' :: r => .ok (.jnull, r)
    | 't' :: 'r' :: 'u' :: 'e' :: r => .ok (.jbool true, r)
    | 'f' :: 'a' :: 'l' :: 's' :: 'e' :: r => .ok (.jbool false, r)
    | 'N' :: 'a' :: 'N' :: r => .ok (.jnum "NaN", r)
    | 'I' :: 'n' :: 'f' :: 'i' :: 'n' :: 'i' :: 't' :: 'y' :: r => .ok (.jnum "Infinity", r)
    | '-' :: 'I' :: 'n' :: 'f' :: 'i' :: 'n' :: 'i' :: 't' :: 'y' :: r =>
      .ok (.jnum "-Infinity", r)
    | l =>
      (match scanNumber l with
       | .ok (lit, r1) => .ok (.jnum lit, r1)
       | .error e => .error e)
termination_by structural fuel => fuel

/-- Parse the members of an object after its opening brace (leading
whitespace already skipped), up to and including the closing brace. -/
def parseMembers : Nat → List Char → Except String (List (String × Json) × List Char)
  | 0, _ => .error "Expecting property name enclosed in double quotes"
  | fuel + 1, l =>
    match l with
    | '}' :: r => .ok ([], r)
    | '"' :: r =>
      (match scanString [] r with
       | .error e => .error e
       | .ok (key, r1) =>
         match skipJsonWs r1 with
         | ':' :: r2 =>
           (match parseValue fuel (skipJsonWs r2) with
            | .error e => .error e
            | .ok (v, r3) =>
              match skipJsonWs r3 with
              | ',' :: r4 =>
                (match parseMoreMembers fuel (skipJsonWs r4) with
                 | .ok (ms, r5) => .ok ((key, v) :: ms, r5)
                 | .error e => .error e)
              | '}' :: r4 => .ok ([(key, v)], r4)
              | _ => .error "Expecting comma delimiter")
         | _ => .error "Expecting colon delimiter")
    | _ => .error "Expecting property name enclosed in double quotes"
termination_by structural fuel => fuel

/-- Parse the members of an object after a comma: a closing brace is no
longer allowed here (Python rejects trailing commas). -/
def parseMoreMembers : Nat → List Char → Except String (List (String × Json) × List Char)
  | 0, _ => .error "Expecting property name enclosed in double quotes"
  | fuel + 1, l =>
    match l with
    | '"' :: r =>
      (match scanString [] r with
       | .error e => .error e
       | .ok (key, r1) =>
         match skipJsonWs r1 with
         | ':' :: r2 =>
           (match parseValue fuel (skipJsonWs r2) with
            | .error e => .error e
            | .ok (v, r3) =>
              match skipJsonWs r3 with
              | ',' :: r4 =>
                (match parseMoreMembers fuel (skipJsonWs r4) with
                 | .ok (ms, r5) => .ok ((key, v) :: ms, r5)
                 | .error e => .error e)
              | '}' :: r4 => .ok ([(key, v)], r4)
              | _ => .error "Expecting comma delimiter")
         | _ => .error "Expecting colon delimiter")
    | _ => .error "Expecting property name enclosed in double quotes"
termination_by structural fuel => fuel

/-- Parse the elements of an array after its opening bracket (leading
whitespace already skipped), up to and including the closing bracket. -/
def parseElems : Nat → List Char → Except String (List Json × List Char)
  | 0, _ => .error "Expecting value"
  | fuel + 1, l =>
    match l with
    | ']' :: r => .ok ([], r)
    | l =>
      (match parseValue fuel l with
       | .error e => .error e
       | .ok (v, r1) =>
         match skipJsonWs r1 with
         | ',' :: r2 =>
           (match parseMoreElems fuel (skipJsonWs r2) with
            | .ok (vs, r3) => .ok (v :: vs, r3)
            | .error e => .error e)
         | ']' :: r2 => .ok ([v], r2)
         | _ => .error "Expecting comma delimiter")
termination_by structural fuel => fuel

/-- Parse the elements of an array after a comma: a closing bracket is no
longer allowed here. -/
def parseMoreElems : Nat → List Char → Except String (List Json × List Char)
  | 0, _ => .error "Expecting value"
  | fuel + 1, l =>
    (match parseValue fuel l with
     | .error e => .error e
     | .ok (v, r1) =>
       match skipJsonWs r1 with
       | ',' :: r2 =>
         (match parseMoreElems fuel (skipJsonWs r2) with
          | .ok (vs, r3) => .ok (v :: vs, r3)
          | .error e => .error e)
       | ']' :: r2 => .ok ([v], r2)
       | _ => .error "Expecting comma delimiter")
termination_by structural fuel => fuel

end

/-- Model of Python's strict `json.loads`: skip leading whitespace, parse
one value, skip trailing whitespace, and reject anything left over (as
Python's `Extra data` error). -/
def loads (s : String) : Except String Json :=
  match parseValue ((skipJsonWs s.data).length + 1) (skipJsonWs s.data) with
  | .error e => .error e
  | .ok (v, rest) =>
    match skipJsonWs rest with
    | [] => .ok v
    | _ => .error "Extra data"

/-! ## Model of the fenced-block regular expression

`extract_json` first runs `re.search` with the pattern
` ```json\s*(\x7b.*\x7d)\s*``` ` under `re.DOTALL`.  Because `\s` and the
literal braces and backticks are disjoint character classes, the
backtracking search is forced into a simple shape: at the leftmost
position where ` ```json ` occurs, the character after the maximal
whitespace run must be an opening brace, and the capture extends greedily
to the last closing brace that is followed by optional whitespace and
three backticks. -/

/-- Whitespace as matched by `\s` in Python regular expressions (ASCII
range; the inputs of interest are ASCII). -/
def isReWs : Char → Bool
  | ' ' | '\t' | '\n' | '\r' | '\x0b' | '\x0c' => true
  | _ => false

/-- Drop leading regex whitespace. -/
def skipReWs (l : List Char) : List Char := l.dropWhile isReWs

/-- After a closing brace, can the tail of the pattern (`\s*` followed by
three backticks) match here?  Backtracking adds nothing: backticks are not
whitespace, so the three backticks must sit right after the maximal
whitespace run. -/
def closeFollows (l : List Char) : Bool :=
  leadsWith "```".data (skipReWs l)

/-- Index of the last character of the greedy capture within `body` (the
text after the opening brace): the rightmost closing brace whose tail
matches the rest of the pattern. -/
def lastClose : List Char → Option Nat
  | [] => none
  | c :: rest =>
    match lastClose rest with
    | some i => some (i + 1)
    | none => if c == '}' && closeFollows rest then some 0 else none

/-- Attempt to match the whole pattern anchored at the head of `l`,
returning the capture group (brace to brace inclusive). -/
def matchFencedHere (l : List Char) : Option (List Char) :=
  if leadsWith "```json".data l then
    match skipReWs (l.drop 7) with
    | '{' :: body => (lastClose body).map (fun i => '{' :: body.take (i + 1))
    | _ => none
  else none

/-- `re.search`: try every start position from the left and return the
first capture. -/
def searchFenced : List Char → Option (List Char)
  | [] => none
  | c :: rest =>
    match matchFencedHere (c :: rest) with
    | some cap => some cap
    | none => searchFenced rest

/-- String-level wrapper for the fenced-block search of `extract_json`. -/
def fencedMatch (t : String) : Option String :=
  (searchFenced t.data).map String.mk

/-! ## `extract_json` -/

/-- Substring from the first opening brace to the last closing brace
inclusive, as selected by the fallback branch of `extract_json`
(`response_text[start:end+1]` after `find`/`rfind`); `none` exactly when
that branch returns the no-valid-JSON error. -/
def braceSpan (l : List Char) : Option (List Char) :=
  match strFind '{' l, strRfind '}' l with
  | some s, some e => if e ≤ s then none else some ((l.drop s).take (e + 1 - s))
  | _, _ => none

/-- The brace-delimited span `extract_json` submits to `json.loads`:
the fenced capture when the regular expression matches, otherwise the
first-brace-to-last-brace substring. -/
def selectedSpan (t : String) : Option String :=
  match fencedMatch t with
  | some s => some s
  | none => (braceSpan t.data).map String.mk

/-- The error object `\x7b"error": "No valid JSON found in response."\x7d`. -/
def noValidJsonErr : Json := .jobj [("error", .jstr "No valid JSON found in response.")]

/-- The error object for a failed parse of the selected span. -/
def decodeErr (msg : String) : Json :=
  .jobj [("error", .jstr ("JSON decode error: " ++ msg))]

/-- Model of `extract_json` (`src/main.py`): grab a fenced ```json block
via the regular expression, else cut from the first `\x7b` to the last
`\x7d`; report the no-valid-JSON error when that fails, then strict-parse
the span, downgrading a decode failure to an error object. -/
def extract_json (response_text : String) : Json :=
  match fencedMatch response_text with
  | some json_str =>
    (match loads json_str with
     | .ok v => v
     | .error e => decodeErr e)
  | none =>
    match braceSpan response_text.data with
    | none => noValidJsonErr
    | some json_str =>
      match loads (String.mk json_str) with
      | .ok v => v
      | .error e => decodeErr e

/-! ## Rate limiter

Timestamps are integers counting microseconds, the resolution of Python's
`datetime`.  `datetime` subtraction yields a normalized `timedelta`
(`days`, `seconds` in `[0, 86400)`, `microseconds` in `[0, 10^6)`, with
floor semantics), whose `.seconds` field — the quantity the source compares
against `RATE_PERIOD` — is therefore the floored total seconds modulo one
day. -/

/-- Requests allowed per IP within the window (`RATE_LIMIT` in the source). -/
def rateLimitMax : Nat := 10

/-- Window length in seconds (`RATE_PERIOD` in the source). -/
def ratePeriod : Int := 60

/-- The `.seconds` field of the normalized `timedelta` holding `d`
microseconds. -/
def tdSeconds (d : Int) : Int := (d % 86400000000) / 1000000

/-- The filtering predicate of `rate_limit`:
`(now - t).seconds < RATE_PERIOD`. -/
def keepTimestamp (now t : Int) : Bool := tdSeconds (now - t) < ratePeriod

/-- The in-memory table `rate_limit_data`: client IP to list of request
timestamps. -/
abbrev RateDict := List (String × List Int)

/-- `rate_limit_data.get(ip, [])`. -/
def dictGet (d : RateDict) (ip : String) : List Int :=
  match d with
  | [] => []
  | (k, v) :: rest => if k = ip then v else dictGet rest ip

/-- `rate_limit_data[ip] = v`. -/
def dictSet (d : RateDict) (ip : String) (v : List Int) : RateDict :=
  match d with
  | [] => [(ip, v)]
  | (k, w) :: rest => if k = ip then (ip, v) :: rest else (k, w) :: dictSet rest ip v

/-- Outcome of the `rate_limit` dependency: the request is admitted, or a
429 Too Many Requests exception is raised. -/
inductive RateResult where
  | admitted
  | rejected429
deriving DecidableEq

/-- Model of `rate_limit` (`src/main.py`): fetch the IP's stored
timestamps, filter them through `keepTimestamp`, raise 429 when at least
`RATE_LIMIT` survive (leaving the table untouched, since the exception
fires before the write-back), else append `now` and store the filtered
list. -/
def rate_limit (data : RateDict) (ip : String) (now : Int) : RateResult × RateDict :=
  let timestamps := dictGet data ip
  let filtered := timestamps.filter (keepTimestamp now)
  if rateLimitMax ≤ filtered.length then (.rejected429, data)
  else (.admitted, dictSet data ip (filtered ++ [now]))

/-! ## Access-control gate -/

/-- Outcome of a FastAPI dependency: a value, or an HTTP exception with the
given status code. -/
inductive Gate (α : Type) where
  | ok (a : α)
  | httpError (status : Nat)
deriving DecidableEq

/-- Model of `get_api_key` composed with
`APIKeyHeader(name="X-API-Key", auto_error=True)`: a missing header is
rejected by the security scheme with 403 before the dependency body runs,
and a header differing from the configured `API_KEY` is rejected with 403
by the dependency itself. -/
def get_api_key (apiKey : String) (header : Option String) : Gate String :=
  match header with
  | none => .httpError 403
  | some k => if k ≠ apiKey then .httpError 403 else .ok k

/-- The domain whose presence the Referer check requires. -/
def siteDomain : String := "aiharajudge.site"

/-- Model of `check_referer` (`src/main.py`): reject with 403 when the
Referer header is absent or does not contain `aiharajudge.site` as a
substring, else return `True`. -/
def check_referer (referer : Option String) : Gate Bool :=
  match referer with
  | none => .httpError 403
  | some r =>
    if !containsSub r.data siteDomain.data then .httpError 403 else .ok true

/-! ## `check_harassment` handler (image processing and outbound contents)

The upload payload and the decoded image are abstract types, and PIL's
`Image.open` is an abstract partial decoding function: the handler logic
under verification only routes these values.  The outbound Gemini call is
represented by the list of contents handed to it (decoded images followed
by the user prompt). -/

/-- An uploaded file: its declared content type and its raw payload. -/
structure UploadedPart (α : Type) where
  content_type : String
  payload : α
deriving DecidableEq

/-- One entry of the `contents` list passed to
`client.models.generate_content`. -/
inductive Content (β : Type) where
  | image (img : β)
  | prompt (s : String)

/-- The user prompt template of `check_harassment`, with the conversation
text interpolated verbatim. -/
def user_prompt (text : String) : String :=
  "\n【会話内容】\n" ++ text ++
  "\n\n出力JSONのフォーマット:\n\x7b\n  \"パワーハラスメント\": 0〜100,\n  \"スメルハラスメント\": 0〜100,\n  \"カスタマーハラスメント\": 0〜100,\n  \"ハラスメントハラスメント\": 0〜100,\n  \"マタニティハラスメント\": 0〜100,\n  \"リモートハラスメント\": 0〜100,\n  \"テクノロジーハラスメント\": 0〜100,\n  \"セクシュアルハラスメント\": 0〜100,\n  \"モラルハラスメント\": 0〜100,\n  \"総合コメント\": \"XXX\"\n\x7d\n"

/-- Does the upload declare an `image/*` content type?  Only such files
are decoded and forwarded. -/
def isImagePart {α : Type} (f : UploadedPart α) : Bool :=
  leadsWith "image/".data f.content_type.data

/-- The image loop of `check_harassment` over the (already capped) uploads:
skip files without an `image/*` content type, decode the rest, and raise
400 on the first decode failure, mirroring the `try/except` around
`Image.open`. -/
def imageLoop {α β : Type} (decode : α → Option β) :
    List (UploadedPart α) → Gate (List β)
  | [] => .ok []
  | f :: rest =>
    if isImagePart f then
      match decode f.payload with
      | some img =>
        (match imageLoop decode rest with
         | .ok imgs => .ok (img :: imgs)
         | .httpError s => .httpError s)
      | none => .httpError 400
    else imageLoop decode rest

/-- Model of the `check_harassment` handler body up to the outbound model
call: images beyond the third are dropped (`images[:3]`), the image loop
runs, and on success the contents list is the decoded images followed by
the user prompt (`contents.append(user_prompt)`).  A `None` images field
behaves as no uploads (`if images:`). -/
def check_harassment {α β : Type} (decode : α → Option β)
    (images : Option (List (UploadedPart α))) (text : String) :
    Gate (List (Content β)) :=
  let imgList := match images with
    | none => []
    | some l => l
  match imageLoop decode (imgList.take 3) with
  | .httpError s => .httpError s
  | .ok imgs => .ok (imgs.map Content.image ++ [Content.prompt (user_prompt text)])

/-! ## Structural lemmas about the selected span and the parser -/

theorem matchFencedHere_head (l cap : List Char)
    (h : matchFencedHere l = some cap) : ∃ r, cap = '{' :: r := by
  unfold matchFencedHere at h
  by_cases ht : leadsWith "```json".data l = true
  · rw [if_pos ht] at h
    split at h
    · obtain ⟨i, _, hcap⟩ := Option.map_eq_some'.mp h
      exact ⟨_, hcap.symm⟩
    · exact Option.noConfusion h
  · rw [if_neg ht] at h
    exact Option.noConfusion h

theorem searchFenced_head (l cap : List Char)
    (h : searchFenced l = some cap) : ∃ r, cap = '{' :: r := by
  induction l with
  | nil => exact Option.noConfusion h
  | cons c rest ih =>
    rw [searchFenced] at h
    cases hm : matchFencedHere (c :: rest) with
    | some cap2 =>
      rw [hm] at h
      obtain rfl : cap2 = cap := Option.some.inj h
      exact matchFencedHere_head _ _ hm
    | none =>
      rw [hm] at h
      exact ih h

theorem braceSpan_head (l sp : List Char)
    (h : braceSpan l = some sp) : ∃ r, sp = '{' :: r := by
  unfold braceSpan at h
  cases hf : strFind '{' l with
  | none => rw [hf] at h; exact Option.noConfusion h
  | some s =>
    cases hr : strRfind '}' l with
    | none => rw [hf, hr] at h; exact Option.noConfusion h
    | some e =>
      rw [hf, hr] at h
      have h2 : (if e ≤ s then none
          else some (List.take (e + 1 - s) (List.drop s l))) = some sp := h
      by_cases hle : e ≤ s
      · rw [if_pos hle] at h2; exact Option.noConfusion h2
      · rw [if_neg hle] at h2
        obtain rfl : (l.drop s).take (e + 1 - s) = sp := Option.some.inj h2
        have hget := strFind_mem '{' l s hf
        have hlt : s < l.length := by
          by_contra hge
          rw [List.get?_eq_none.mpr (Nat.le_of_not_lt hge)] at hget
          exact Option.noConfusion hget
        have hdrop : l.drop s = l.get ⟨s, hlt⟩ :: l.drop (s + 1) :=
          List.drop_eq_get_cons hlt
        have hgv : l.get ⟨s, hlt⟩ = '{' := by
          have := List.get?_eq_get hlt
          rw [this] at hget
          exact Option.some.inj hget
        obtain ⟨k, hk⟩ : ∃ k, e + 1 - s = k + 1 := ⟨e - s, by omega⟩
        refine ⟨(l.drop (s + 1)).take k, ?_⟩
        rw [hdrop, hgv, hk, List.take_succ_cons]

theorem fencedMatch_head (t : String) (s : String)
    (h : fencedMatch t = some s) : ∃ r, s.data = '{' :: r := by
  unfold fencedMatch at h
  obtain ⟨cap, hcap, rfl⟩ := Option.map_eq_some'.mp h
  exact searchFenced_head _ _ hcap

theorem parseValue_brace_obj (n : Nat) (r : List Char) (v : Json) (rest : List Char)
    (h : parseValue n ('{' :: r) = .ok (v, rest)) : ∃ ms, v = .jobj ms := by
  cases n with
  | zero => exact Except.noConfusion h
  | succ n =>
    have he : parseValue (n + 1) ('{' :: r)
        = (match parseMembers n (skipJsonWs r) with
           | .ok (ms, r1) => .ok (Json.jobj ms, r1)
           | .error e => .error e) := rfl
    rw [he] at h
    cases hm : parseMembers n (skipJsonWs r) with
    | ok p =>
      rw [hm] at h
      obtain ⟨ms, r1⟩ := p
      have h1 : Except.ok (ε := String) (Json.jobj ms, r1) = Except.ok (v, rest) := h
      injection h1 with h2
      injection h2 with h3 _
      exact ⟨ms, h3.symm⟩
    | error e =>
      rw [hm] at h
      exact Except.noConfusion h

theorem loads_brace_obj (s : String) (v : Json) (l : List Char)
    (hd : s.data = '{' :: l) (h : loads s = .ok v) : ∃ ms, v = .jobj ms := by
  unfold loads at h
  rw [hd] at h
  have hsw : skipJsonWs ('{' :: l) = '{' :: l := rfl
  rw [hsw] at h
  cases hp : parseValue (('{' :: l).length + 1) ('{' :: l) with
  | error e => rw [hp] at h; exact Except.noConfusion h
  | ok p =>
    obtain ⟨v1, rest⟩ := p
    rw [hp] at h
    obtain ⟨ms, hms⟩ := parseValue_brace_obj _ _ _ _ hp
    have h1 : (match skipJsonWs rest with
        | [] => Except.ok v1
        | _ => Except.error (ε := String) "Extra data") = Except.ok v := h
    cases hr : skipJsonWs rest with
    | nil =>
      rw [hr] at h1
      obtain rfl : v1 = v := by injection h1
      exact ⟨ms, hms⟩
    | cons c cs =>
      rw [hr] at h1
      exact Except.noConfusion h1

theorem selectedSpan_head (t s : String)
    (h : selectedSpan t = some s) : ∃ r, s.data = '{' :: r := by
  unfold selectedSpan at h
  cases hf : fencedMatch t with
  | some js =>
    rw [hf] at h
    obtain rfl : js = s := Option.some.inj h
    exact fencedMatch_head _ _ hf
  | none =>
    rw [hf] at h
    obtain ⟨sp, hsp, rfl⟩ := Option.map_eq_some'.mp h
    obtain ⟨r, hr⟩ := braceSpan_head _ _ hsp
    exact ⟨r, by rw [hr]⟩

/-! ## Claims about `extract_json` -/

/-- Claim C2, amended: whenever the fenced-block pattern matches and the
captured span is a well-formed JSON document, `extract_json` returns
exactly the parsed object, in preference to the first-brace/last-brace
fallback.  (The capture is greedy, so with several fenced blocks the span
runs from the first block's opening brace to the last eligible closing
brace; see the counterexample below.) -/
theorem extract_json_fenced_capture (t s : String) (v : Json)
    (h1 : fencedMatch t = some s) (h2 : loads s = .ok v) :
    extract_json t = v := by
  unfold extract_json
  rw [h1]
  have hm : (match loads s with
      | Except.ok v => v
      | Except.error e => decodeErr e) = v := by rw [h2]
  exact hm

/-- Concrete instance of the amended claim C2: a single fenced JSON block
is parsed and returned. -/
theorem extract_json_fenced_capture_witness :
    fencedMatch "```json\n\x7b\"a\": 1\x7d\n```" = some "\x7b\"a\": 1\x7d"
    ∧ extract_json "```json\n\x7b\"a\": 1\x7d\n```" = .jobj [("a", .jnum "1")] :=
  ⟨by rfl,
   extract_json_fenced_capture "```json\n\x7b\"a\": 1\x7d\n```" "\x7b\"a\": 1\x7d"
     (Json.jobj [("a", Json.jnum "1")]) (by rfl) (by rfl)⟩

/-- A response holding two fenced JSON blocks, each individually
well-formed. -/
def multiFencedText : String :=
  "```json\n\x7b\"a\": 1\x7d\n```\nSecond attempt:\n```json\n\x7b\"b\": 2\x7d\n```"

/-- Claim C2 as stated is false on the code: `multiFencedText` contains a
fenced code block tagged as JSON whose braced span `\x7b"a": 1\x7d` is a
well-formed object, yet `extract_json` does not return that object — the
greedy capture stretches across both blocks, the combined span fails to
parse, and the decode-error object is returned instead. -/
theorem extract_json_fenced_capture_cex :
    containsSub multiFencedText.data "```json\n\x7b\"a\": 1\x7d\n```".data = true
    ∧ loads "\x7b\"a\": 1\x7d" = .ok (.jobj [("a", .jnum "1")])
    ∧ extract_json multiFencedText = decodeErr "Extra data"
    ∧ extract_json multiFencedText ≠ .jobj [("a", .jnum "1")] :=
  ⟨by decide, by rfl, by rfl,
   fun h => absurd (congrArg Json.firstKey h) (by decide)⟩

/-- Claim C4: when the fenced-block pattern does not match and there is no
opening brace, or no closing brace, or the last closing brace precedes the
first opening brace, `extract_json` returns the no-valid-JSON error
object. -/
theorem extract_json_no_valid_json (t : String)
    (h1 : fencedMatch t = none)
    (h2 : strFind '{' t.data = none ∨ strRfind '}' t.data = none ∨
      ∃ s e, strFind '{' t.data = some s ∧ strRfind '}' t.data = some e ∧ e < s) :
    extract_json t = noValidJsonErr := by
  have hb : braceSpan t.data = none := by
    rcases h2 with h | h | ⟨s, e, hs, he, hlt⟩
    · unfold braceSpan
      rw [h]
    · unfold braceSpan
      rw [h]
      cases strFind '{' t.data <;> rfl
    · have h3 : braceSpan t.data
          = (if e ≤ s then none
             else some (List.take (e + 1 - s) (List.drop s t.data))) := by
        unfold braceSpan
        rw [hs, he]
      rw [h3, if_pos (Nat.le_of_lt hlt)]
  have h4 : extract_json t
      = (match braceSpan t.data with
         | none => noValidJsonErr
         | some json_str =>
           match loads (String.mk json_str) with
           | Except.ok v => v
           | Except.error e => decodeErr e) := by
    unfold extract_json
    rw [h1]
  rw [h4, hb]

/-- Concrete instance of claim C4: a reply with a closing brace before the
only opening brace yields the no-valid-JSON error object. -/
theorem extract_json_no_valid_json_witness :
    extract_json "oops \x7d then \x7b" = noValidJsonErr :=
  extract_json_no_valid_json "oops \x7d then \x7b" (by decide)
    (Or.inr (Or.inr ⟨12, 5, by decide, by decide, by omega⟩))

/-- Claim C5: `extract_json` is total and always returns an object — the
successfully parsed span (which, starting with an opening brace, can only
parse to an object) or one of the error objects; in particular, when the
selected span is not valid JSON, it returns the decode-error object rather
than raising. -/
theorem extract_json_total_mapping (t : String) :
    (∃ kvs, extract_json t = .jobj kvs)
    ∧ (∀ s e, selectedSpan t = some s → loads s = .error e →
        extract_json t = decodeErr e) := by
  cases hf : fencedMatch t with
  | some js =>
    have hsel : selectedSpan t = some js := by
      have h0 : selectedSpan t
          = (match fencedMatch t with
             | some s => some s
             | none => (braceSpan t.data).map String.mk) := rfl
      rw [h0, hf]
    have hstep : extract_json t
        = (match loads js with
           | Except.ok v => v
           | Except.error e => decodeErr e) := by
      unfold extract_json
      rw [hf]
    cases hl : loads js with
    | ok v =>
      have hx : extract_json t = v := by rw [hstep, hl]
      obtain ⟨r, hr⟩ := fencedMatch_head _ _ hf
      obtain ⟨ms, rfl⟩ := loads_brace_obj js v r hr hl
      refine ⟨⟨ms, hx⟩, fun s e hs he => ?_⟩
      obtain rfl : js = s := by rw [hsel] at hs; exact Option.some.inj hs
      rw [hl] at he
      exact Except.noConfusion he
    | error e0 =>
      have hx : extract_json t = decodeErr e0 := by rw [hstep, hl]
      refine ⟨⟨_, hx⟩, fun s e hs he => ?_⟩
      obtain rfl : js = s := by rw [hsel] at hs; exact Option.some.inj hs
      rw [hl] at he
      obtain rfl : e0 = e := by injection he
      exact hx
  | none =>
    have h0 : selectedSpan t
        = (match fencedMatch t with
           | some s => some s
           | none => (braceSpan t.data).map String.mk) := rfl
    have h4 : extract_json t
        = (match braceSpan t.data with
           | none => noValidJsonErr
           | some json_str =>
             match loads (String.mk json_str) with
             | Except.ok v => v
             | Except.error e => decodeErr e) := by
      unfold extract_json
      rw [hf]
    cases hb : braceSpan t.data with
    | none =>
      have hsel : selectedSpan t = none := by rw [h0, hf, hb]; rfl
      have hx : extract_json t = noValidJsonErr := by rw [h4, hb]
      exact ⟨⟨_, hx⟩, fun s e hs => by rw [hsel] at hs; exact Option.noConfusion hs⟩
    | some sp =>
      have hsel : selectedSpan t = some (String.mk sp) := by rw [h0, hf, hb]; rfl
      have hstep : extract_json t
          = (match loads (String.mk sp) with
             | Except.ok v => v
             | Except.error e => decodeErr e) := by rw [h4, hb]
      obtain ⟨r, hr⟩ := braceSpan_head _ _ hb
      cases hl : loads (String.mk sp) with
      | ok v =>
        have hx : extract_json t = v := by rw [hstep, hl]
        obtain ⟨ms, rfl⟩ := loads_brace_obj (String.mk sp) v r (by rw [hr]) hl
        refine ⟨⟨ms, hx⟩, fun s e hs he => ?_⟩
        obtain rfl : String.mk sp = s := by rw [hsel] at hs; exact Option.some.inj hs
        rw [hl] at he
        exact Except.noConfusion he
      | error e0 =>
        have hx : extract_json t = decodeErr e0 := by rw [hstep, hl]
        refine ⟨⟨_, hx⟩, fun s e hs he => ?_⟩
        obtain rfl : String.mk sp = s := by rw [hsel] at hs; exact Option.some.inj hs
        rw [hl] at he
        obtain rfl : e0 = e := by injection he
        exact hx

/-- Concrete instance of claim C5: a span that is not valid JSON yields the
decode-error object (and the result is still an object). -/
theorem extract_json_total_mapping_witness :
    (∃ kvs, extract_json "\x7bbad\x7d" = .jobj kvs)
    ∧ extract_json "\x7bbad\x7d"
        = decodeErr "Expecting property name enclosed in double quotes" :=
  ⟨(extract_json_total_mapping "\x7bbad\x7d").1,
   (extract_json_total_mapping "\x7bbad\x7d").2 "\x7bbad\x7d"
     "Expecting property name enclosed in double quotes" rfl rfl⟩

/-! ## Claims about the rate limiter -/

/-- Claim C1 — refuted by the code (a slip against the source's own
comment, which says the filter drops request times exceeding
`RATE_PERIOD`): the filter compares `(now - t).seconds`, the seconds
component of the `timedelta` modulo one day, so a timestamp that is one day
and thirty seconds old is kept even though it is far older than the
60-second window, and an IP whose ten stored requests are that old still
has a fresh request rejected although the window elapsed long ago. -/
theorem rate_limit_stale_timestamp_bug :
    keepTimestamp 86430000000 0 = true
    ∧ (86430000000 : Int) - 0 ≥ ratePeriod * 1000000
    ∧ (rate_limit [("203.0.113.7", List.replicate 10 0)] "203.0.113.7"
        86430000000).1 = .rejected429 := by
  refine ⟨by decide, by decide, by decide⟩

/-- Claim C3 — refuted by the code (same `.seconds` slip, against the
docstring stating that only requests inside `RATE_PERIOD` count): with ten
stored timestamps exactly one day old, the number of stored timestamps
genuinely inside the 60-second window is zero, yet the new request is
rejected with 429 instead of being recorded and admitted. -/
theorem rate_limit_fresh_window_rejected_bug :
    (((dictGet [("198.51.100.9", List.replicate 10 (0 : Int))] "198.51.100.9").filter
        (fun t => decide (86400000000 - t < ratePeriod * 1000000))).length = 0)
    ∧ (rate_limit [("198.51.100.9", List.replicate 10 (0 : Int))] "198.51.100.9"
        86400000000).1 = .rejected429 := by
  refine ⟨by decide, by decide⟩

/-- Claim C10: when `rate_limit` rejects a request with 429, the stored
table is left exactly as it was — the exception fires before the filtered
list is written back, so rejected requests never consume slots. -/
theorem rate_limit_reject_preserves_state (data : RateDict) (ip : String) (now : Int)
    (h : (rate_limit data ip now).1 = .rejected429) :
    (rate_limit data ip now).2 = data := by
  unfold rate_limit at h ⊢
  by_cases hc : rateLimitMax ≤ ((dictGet data ip).filter (keepTimestamp now)).length
  · simp [hc]
  · simp [hc] at h

/-- Concrete instance of claim C10: an IP with ten fresh timestamps is
rejected and the table is untouched. -/
theorem rate_limit_reject_preserves_state_witness :
    (rate_limit [("192.0.2.4", List.replicate 10 (0 : Int))] "192.0.2.4" 5000000).2
      = [("192.0.2.4", List.replicate 10 (0 : Int))] :=
  rate_limit_reject_preserves_state _ _ _ (by decide)

/-! ## Claims about the access-control gate -/

/-- Claim C6: the API-key gate passes exactly when the `X-API-Key` header
equals the configured secret; a missing header (rejected by the security
scheme itself) or any other value is rejected with 403 before the handler
body runs. -/
theorem get_api_key_gate (apiKey : String) (header : Option String) :
    ((∃ v, get_api_key apiKey header = .ok v) ↔ header = some apiKey)
    ∧ (header ≠ some apiKey → get_api_key apiKey header = .httpError 403) := by
  constructor
  · constructor
    · rintro ⟨v, hv⟩
      cases header with
      | none => simp [get_api_key] at hv
      | some k =>
        by_cases hk : k = apiKey
        · rw [hk]
        · simp [get_api_key, hk] at hv
    · rintro rfl
      exact ⟨apiKey, by simp [get_api_key]⟩
  · intro hne
    cases header with
    | none => rfl
    | some k =>
      have hk : k ≠ apiKey := fun h => hne (by rw [h])
      simp [get_api_key, hk]

/-- Concrete instance of claim C6: the configured key passes, a wrong key
and a missing header are both rejected with 403. -/
theorem get_api_key_gate_witness :
    (∃ v, get_api_key "secret-key" (some "secret-key") = .ok v)
    ∧ get_api_key "secret-key" (some "wrong-key") = .httpError 403
    ∧ get_api_key "secret-key" none = .httpError 403 :=
  ⟨(get_api_key_gate "secret-key" (some "secret-key")).1.mpr rfl,
   (get_api_key_gate "secret-key" (some "wrong-key")).2 (by decide),
   (get_api_key_gate "secret-key" none).2 (by decide)⟩

/-- Claim C7: the Referer check rejects with 403 exactly when the header is
absent or does not contain `aiharajudge.site` as a substring; otherwise it
passes (returning `True`). -/
theorem check_referer_gate (referer : Option String) :
    (check_referer referer = .httpError 403
      ↔ (referer = none ∨ ∃ r, referer = some r
          ∧ ¬ ∃ pre post, r.data = pre ++ siteDomain.data ++ post))
    ∧ (check_referer referer ≠ .httpError 403 → check_referer referer = .ok true) := by
  cases referer with
  | none => exact ⟨by simp [check_referer], fun h => absurd rfl h⟩
  | some r =>
    cases hc : containsSub r.data siteDomain.data with
    | true =>
      have hocc := (containsSub_iff r.data siteDomain.data).mp hc
      have hck : check_referer (some r) = .ok true := by simp [check_referer, hc]
      constructor
      · rw [hck]
        constructor
        · intro h; exact Gate.noConfusion h
        · rintro (h | ⟨r2, hr2, hno⟩)
          · exact Option.noConfusion h
          · obtain rfl : r = r2 := Option.some.inj hr2
            exact absurd hocc hno
      · intro _; exact hck
    | false =>
      have hck : check_referer (some r) = .httpError 403 := by simp [check_referer, hc]
      have hno : ¬ ∃ pre post, r.data = pre ++ siteDomain.data ++ post := fun hocc => by
        simp [(containsSub_iff r.data siteDomain.data).mpr hocc] at hc
      constructor
      · constructor
        · intro _; exact Or.inr ⟨r, rfl, hno⟩
        · intro _; exact hck
      · intro h; exact absurd hck h

/-- Concrete instance of claim C7: a referer on the expected site passes, a
foreign referer and a missing header are rejected with 403. -/
theorem check_referer_gate_witness :
    check_referer (some "https://aiharajudge.site/page") = .ok true
    ∧ check_referer (some "https://evil.example.com/") = .httpError 403
    ∧ check_referer none = .httpError 403 :=
  ⟨(check_referer_gate (some "https://aiharajudge.site/page")).2 (by decide),
   (check_referer_gate (some "https://evil.example.com/")).1.mpr
     (Or.inr ⟨_, rfl, fun h => by
        have := (containsSub_iff "https://evil.example.com/".data siteDomain.data).mpr h
        exact absurd this (by decide)⟩),
   (check_referer_gate none).1.mpr (Or.inl rfl)⟩

/-! ## Claims about the `check_harassment` handler -/

theorem imageLoop_all_decoded {α β : Type} (decode : α → Option β)
    (l : List (UploadedPart α))
    (h : ∀ f ∈ l, isImagePart f → (decode f.payload).isSome) :
    imageLoop decode l
      = .ok ((l.filter isImagePart).filterMap (fun f => decode f.payload)) := by
  induction l with
  | nil => rfl
  | cons f rest ih =>
    have ihr := ih (fun g hg hgi => h g (List.mem_cons_of_mem f hg) hgi)
    by_cases hf : isImagePart f = true
    · obtain ⟨img, himg⟩ :=
        Option.isSome_iff_exists.mp (h f (List.mem_cons_self f rest) hf)
      simp [imageLoop, hf, himg, ihr, List.filter_cons, List.filterMap_cons]
    · simp [imageLoop, hf, ihr, List.filter_cons, List.filterMap_cons]

theorem imageLoop_decode_failure {α β : Type} (decode : α → Option β)
    (l : List (UploadedPart α))
    (h : ∃ f ∈ l, isImagePart f ∧ decode f.payload = none) :
    imageLoop decode l = .httpError 400 := by
  induction l with
  | nil =>
    obtain ⟨f, hfm, _⟩ := h
    exact absurd hfm (List.not_mem_nil f)
  | cons g rest ih =>
    obtain ⟨f, hfm, hfi, hfd⟩ := h
    rcases List.mem_cons.mp hfm with rfl | hfr
    · simp [imageLoop, hfi, hfd]
    · by_cases hg : isImagePart g = true
      · cases hd : decode g.payload with
        | none => simp [imageLoop, hg, hd]
        | some img => simp [imageLoop, hg, hd, ih ⟨f, hfr, hfi, hfd⟩]
      · simp [imageLoop, hg, ih ⟨f, hfr, hfi, hfd⟩]

/-- Claim C8: when every relevant upload decodes, the contents sent to the
model are exactly the decoded images among the first three supplied whose
declared content type starts with `image/`, in order, followed by the user
prompt — files beyond the third and files without an `image/*` content type
are ignored. -/
theorem check_harassment_image_cap {α β : Type} (decode : α → Option β)
    (images : List (UploadedPart α)) (text : String)
    (h : ∀ f ∈ images.take 3, isImagePart f → (decode f.payload).isSome) :
    check_harassment decode (some images) text
      = .ok ((((images.take 3).filter isImagePart).filterMap
            (fun f => decode f.payload)).map Content.image
          ++ [Content.prompt (user_prompt text)]) := by
  have h0 : check_harassment decode (some images) text
      = (match imageLoop decode (images.take 3) with
         | .httpError s => .httpError s
         | .ok imgs => .ok (imgs.map Content.image
             ++ [Content.prompt (user_prompt text)])) := rfl
  rw [h0, imageLoop_all_decoded decode _ h]

/-- Five declared-image uploads for the concrete instance of claim C8. -/
def fiveUploads : List (UploadedPart Nat) :=
  [⟨"image/png", 1⟩, ⟨"image/jpeg", 2⟩, ⟨"image/gif", 3⟩,
   ⟨"image/png", 4⟩, ⟨"image/webp", 5⟩]

/-- Concrete instance of claim C8: of five valid uploads, exactly the first
three are included in the outbound contents. -/
theorem check_harassment_image_cap_witness :
    check_harassment (fun n : Nat => some n) (some fiveUploads) "テスト"
      = .ok [Content.image 1, Content.image 2, Content.image 3,
          Content.prompt (user_prompt "テスト")] :=
  check_harassment_image_cap (fun n : Nat => some n) fiveUploads "テスト" (by decide)

/-- Claim C9: when one of the first three supplied files declares an
`image/*` content type but its bytes fail to decode, the handler rejects
with 400 and no contents are produced for the model call. -/
theorem check_harassment_bad_image {α β : Type} (decode : α → Option β)
    (images : List (UploadedPart α)) (text : String)
    (h : ∃ f ∈ images.take 3, isImagePart f ∧ decode f.payload = none) :
    check_harassment decode (some images) text = .httpError 400 := by
  have h0 : check_harassment decode (some images) text
      = (match imageLoop decode (images.take 3) with
         | .httpError s => .httpError s
         | .ok imgs => .ok (imgs.map Content.image
             ++ [Content.prompt (user_prompt text)])) := rfl
  rw [h0, imageLoop_decode_failure decode _ h]

/-- Concrete instance of claim C9: a single declared image that fails to
decode is rejected with 400. -/
theorem check_harassment_bad_image_witness :
    check_harassment (fun _ : Nat => (none : Option Nat))
      (some [⟨"image/png", 7⟩]) "壊れた画像" = .httpError 400 :=
  check_harassment_bad_image (fun _ : Nat => (none : Option Nat))
    [⟨"image/png", 7⟩] "壊れた画像" ⟨⟨"image/png", 7⟩, by decide, by decide, rfl⟩

end AiharaJudge
